import Mathlib

/-!
Verification of `prb` (a parallel file-read benchmark, `main.go`).

The development shallowly embeds the program's core:

* `Stats` / `Stats.Add`          — the counters and their merge (main.go:28-39),
* `readFile1` / `readFile`       — one reader worker's loop body and the whole
                                   loop (main.go:41-74), with the OS calls
                                   (`os.Open`, `io.Copy`, `(*os.File).Close`)
                                   supplied by an oracle `ReadEnv`,
* `FS` / `walkF` / `walk`        — the file tree and the producer's traversal,
                                   following the semantics of Go's
                                   `filepath.Walk` together with the callback
                                   of main.go:79-93,
* `TState` / `Step`              — an interleaving small-step model of
                                   `traverse` (main.go:102-128): one producer,
                                   `w` reader workers, one aggregator and the
                                   orchestrator communicating over the task
                                   and stats queues,
* `outputRun`, `mainExitCode`    — the output-file handling and exit codes of
                                   `main` (main.go:147-187), with the POSIX
                                   open-flag semantics the code relies on.
-/

namespace Prb

/-- Stats collect statistics about what has been seen (main.go:29-32).
Go's `int`/`int64` counters are modelled as `Int`; no claim depends on
overflow and merge is plain addition either way. -/
structure Stats where
  files : Int
  dirs  : Int
  bytes : Int
  deriving DecidableEq, Repr

/-- Add adds all the stats from other (main.go:35-39).  The Go method mutates
its receiver; the embedding returns the updated value. -/
def Stats.Add (s other : Stats) : Stats :=
  { files := s.files + other.files
    dirs  := s.dirs + other.dirs
    bytes := s.bytes + other.bytes }

/-- The zero value `Stats{}` that `traverse`'s accumulator starts from. -/
def Stats.zero : Stats := ⟨0, 0, 0⟩

/-- Oracle for the three OS calls a worker makes per file (main.go:50-67):
whether `os.Open` succeeds, the outcome of `io.Copy(ioutil.Discard, f)`
(`ok n` = read to EOF after `n` bytes, `error` = read error), and whether
`f.Close()` succeeds. -/
structure ReadEnv where
  openOk  : String → Bool
  copyRes : String → Except Unit Nat
  closeOk : String → Bool

/-- One iteration of the reader-worker loop of `readFile` (main.go:44-73):
the stat the worker emits for `filename`, or `none` when it `continue`s
without emitting (open failure, read failure, or close failure). -/
def readFile1 (env : ReadEnv) (filename : String) : Option Stats :=
  if env.openOk filename = false then none
  else
    match env.copyRes filename with
    | Except.error _ => none
    | Except.ok n =>
      if env.closeOk filename = false then none
      else some { files := 1, dirs := 0, bytes := (n : Int) }

/-- The stats one worker emits, in order, for the tasks it receives from the
channel: the whole `readFile` loop (main.go:41-74). -/
def readFile (env : ReadEnv) (tasks : List String) : List Stats :=
  tasks.filterMap (readFile1 env)

/-- A filesystem tree as `filepath.Walk` observes it.  A directory's entries
are a sequence built with `fnil`/`fcons` (the listing `readDirNames` yields,
lexical order).  Error injection follows `filepath.Walk`'s two failure points:
`statErr p` is an entry whose `lstat` fails (the callback gets a non-nil
`err` and nil info), and a `dir` with `readErr = true` is a directory whose
listing fails (the callback gets the directory's info with a non-nil `err`). -/
inductive FS where
  | file (path : String)
  | other (path : String)
  | statErr (path : String)
  | dir (path : String) (readErr : Bool) (entries : FS)
  | fnil
  | fcons (hd tl : FS)
  deriving DecidableEq, Repr

/-- The traversal of main.go:79-93 under `filepath.Walk`'s semantics,
accumulating (tasks sent on `ch`, the `dirs` counter) and returning whether
the walk stopped with an error.  The callback returns `err` unchanged when
`err != nil`, and `filepath.Walk` aborts the whole walk when the callback
returns a non-`SkipDir` error, so the first failing entry ends the
traversal: it is neither counted nor emitted, and nothing after it is
visited.  A `dir` is counted before its entries are walked (`filepath.Walk`
calls the callback on a directory before descending), and a `dir` whose
listing failed is not counted (the callback sees `err != nil` first).
`fnil`/`fcons` walk a directory's entries in order, stopping at the first
error. -/
def walkF : FS → (List String × Nat) → ((List String × Nat) × Bool)
  | FS.file p, acc => ((acc.1 ++ [p], acc.2), false)
  | FS.other _, acc => (acc, false)
  | FS.statErr _, acc => (acc, true)
  | FS.dir _ true _, acc => (acc, true)
  | FS.dir _ false es, acc =>
    walkF es (acc.1, acc.2 + 1)
  | FS.fnil, acc => (acc, false)
  | FS.fcons hd tl, acc =>
    match walkF hd acc with
    | (acc', true) => (acc', true)
    | (acc', false) => walkF tl acc'

/-- The producer `walk` (main.go:76-100): runs the traversal from the root,
logs a traversal error if any, and emits the single summary stat carrying
the final directory count.  Returns (tasks sent on `ch`, that summary
stat). -/
def walk (root : FS) : List String × Stats :=
  ((walkF root ([], 0)).1.1,
   { files := 0, dirs := ((walkF root ([], 0)).1.2 : Int), bytes := 0 })

/-- The externally visible events of the producer, in program order. -/
inductive WalkEvent where
  | sendTask (path : String)
  | logWalkError
  | sendStat (s : Stats)
  | closeTasks
  deriving DecidableEq, Repr

/-- The producer's event trace (main.go:76-100): the task sends issued during
`filepath.Walk`, the error log when the walk returned an error
(main.go:95-97), the summary-stat send (main.go:99), and finally the
deferred `close(ch)` (main.go:77), which runs after the function body. -/
def walkEvents (root : FS) : List WalkEvent :=
  ((walkF root ([], 0)).1.1.map WalkEvent.sendTask) ++
    (if (walkF root ([], 0)).2 then [WalkEvent.logWalkError] else []) ++
    [WalkEvent.sendStat (walk root).2, WalkEvent.closeTasks]

/-- The regular files of a tree, in traversal order (error injection
ignored): the tasks a fully successful walk would emit. -/
def filePaths : FS → List String
  | FS.file p => [p]
  | FS.other _ => []
  | FS.statErr _ => []
  | FS.dir _ _ es => filePaths es
  | FS.fnil => []
  | FS.fcons hd tl => filePaths hd ++ filePaths tl

/-- The number of regular files in a tree. -/
def countFiles (t : FS) : Nat := (filePaths t).length

/-- The number of directories in a tree (a directory counts itself plus the
directories among its entries; the root counts when it is a directory). -/
def countDirs : FS → Nat
  | FS.file _ => 0
  | FS.other _ => 0
  | FS.statErr _ => 0
  | FS.dir _ _ es => 1 + countDirs es
  | FS.fnil => 0
  | FS.fcons hd tl => countDirs hd + countDirs tl

/-- A tree that injects no traversal errors. -/
def noErrors : FS → Bool
  | FS.file _ => true
  | FS.other _ => true
  | FS.statErr _ => false
  | FS.dir _ readErr es => !readErr && noErrors es
  | FS.fnil => true
  | FS.fcons hd tl => noErrors hd && noErrors tl

/-- The byte count `io.Copy` reports for a file (0 when the read fails;
only used under hypotheses that make every read succeed). -/
def fileSize (env : ReadEnv) (p : String) : Int :=
  match env.copyRes p with
  | Except.ok n => (n : Int)
  | Except.error _ => 0

/-- Total size of a tree's regular files as the environment reports them. -/
def totalBytes (env : ReadEnv) (t : FS) : Int :=
  ((filePaths t).map (fileSize env)).sum

/-- Sum of a list of stats (used to state what a bag of emitted stats
amounts to; the aggregator itself is `mergeAll`, a left fold as in the
code). -/
def statsSum (l : List Stats) : Stats := l.foldr Stats.Add Stats.zero

/-- The aggregator goroutine of `traverse` (main.go:115-120): starting from
the current accumulator, fold every received stat with `Stats.Add`, in
arrival order. -/
def mergeAll (z : Stats) (l : List Stats) : Stats := l.foldl Stats.Add z

/-- The stats the tasks still sitting in a queue will eventually contribute
(each task contributes its `readFile1` emission, if any). -/
def queueStats (env : ReadEnv) (l : List String) : Stats :=
  statsSum (l.filterMap (readFile1 env))

/-! ### The operational model of `traverse` (main.go:102-128)

`traverse` runs one producer goroutine (`walk`), `workers` reader goroutines
(`readFile`), one aggregator goroutine, and the orchestrator's own thread,
communicating through the task channel `ch` and the stats channel `statsCh`.
The model is a labelled transition system over `TState`: each constructor of
`Step` is one atomic action of one of those threads at one of its
interaction points (a channel send/receive/close, a `WaitGroup` operation,
termination of a loop).  A worker's open/read/close of a single file touches
no shared state and is collapsed into the `workerTake` step, recording the
emission it will make (if any) as `WState.emitting`.  The channels' bounded
capacity (100) only restricts when a send may proceed, so dropping the bound
only adds interleavings; every safety property proved over this model holds
a fortiori of the capacity-100 system. -/

/-- One reader worker's control state: at the `range ch` loop head (`idle`),
holding a successfully read file's stat it has yet to send (`emitting`), or
out of the loop with `wg.Done()` executed (`finished`). -/
inductive WState where
  | idle
  | emitting (s : Stats)
  | finished
  deriving DecidableEq, Repr

/-- The producer's control state: still inside `filepath.Walk` emitting
tasks (`sending`), having sent the summary stat (`statSent`), or done, with
the deferred `close(ch)` executed (`closed`). -/
inductive ProdPC where
  | sending
  | statSent
  | closed
  deriving DecidableEq, Repr

/-- The global state of one `traverse` run.  `orchPC`: 0 = blocked in
`wg.Wait()`, 1 = past it, about to `close(statsCh)`, 2 = closed, blocked in
`statsWg.Wait()`, 3 = past it, about to return, 4 = returned. -/
structure TState where
  prodRem     : List String
  prodPC      : ProdPC
  taskQ       : List String
  tasksClosed : Bool
  workers     : List WState
  statsQ      : List Stats
  statsClosed : Bool
  aggTotal    : Stats
  aggDone     : Bool
  orchPC      : Nat
  result      : Option Stats
  deriving DecidableEq, Repr

/-- The worker state after taking task `t` from the channel and running the
loop body on it: about to emit the stat on success, back at the loop head
on open/read/close failure. -/
def procTask (env : ReadEnv) (t : String) : WState :=
  match readFile1 env t with
  | some st => WState.emitting st
  | none => WState.idle

/-- The state `traverse` starts from: `tasks` is what the producer will send
(the walk's output), `w` workers all at their loop head, both queues empty
and open, the accumulator at the zero value. -/
def initState (tasks : List String) (w : Nat) : TState :=
  { prodRem := tasks
    prodPC := ProdPC.sending
    taskQ := []
    tasksClosed := false
    workers := List.replicate w WState.idle
    statsQ := []
    statsClosed := false
    aggTotal := Stats.zero
    aggDone := false
    orchPC := 0
    result := none }

/-- One atomic action of the system.  `dirStat` is the summary stat the
producer sends (main.go:99). -/
inductive Step (env : ReadEnv) (dirStat : Stats) : TState → TState → Prop where
  | prodSend (s : TState) (t : String) (rest : List String) :
      s.prodPC = ProdPC.sending → s.prodRem = t :: rest →
      Step env dirStat s { s with prodRem := rest, taskQ := s.taskQ ++ [t] }
  | prodStat (s : TState) :
      s.prodPC = ProdPC.sending → s.prodRem = [] →
      Step env dirStat s
        { s with statsQ := s.statsQ ++ [dirStat], prodPC := ProdPC.statSent }
  | prodClose (s : TState) :
      s.prodPC = ProdPC.statSent →
      Step env dirStat s { s with tasksClosed := true, prodPC := ProdPC.closed }
  | workerTake (s : TState) (i : Nat) (t : String) (rest : List String) :
      s.workers[i]? = some WState.idle → s.taskQ = t :: rest →
      Step env dirStat s
        { s with taskQ := rest, workers := s.workers.set i (procTask env t) }
  | workerEmit (s : TState) (i : Nat) (st : Stats) :
      s.workers[i]? = some (WState.emitting st) →
      Step env dirStat s
        { s with statsQ := s.statsQ ++ [st], workers := s.workers.set i WState.idle }
  | workerFinish (s : TState) (i : Nat) :
      s.workers[i]? = some WState.idle → s.taskQ = [] → s.tasksClosed = true →
      Step env dirStat s { s with workers := s.workers.set i WState.finished }
  | aggRecv (s : TState) (st : Stats) (rest : List Stats) :
      s.statsQ = st :: rest →
      Step env dirStat s { s with statsQ := rest, aggTotal := s.aggTotal.Add st }
  | aggFinish (s : TState) :
      s.statsClosed = true → s.statsQ = [] → s.aggDone = false →
      Step env dirStat s { s with aggDone := true }
  | orchWait (s : TState) :
      s.orchPC = 0 → (∀ ws ∈ s.workers, ws = WState.finished) →
      Step env dirStat s { s with orchPC := 1 }
  | orchClose (s : TState) :
      s.orchPC = 1 →
      Step env dirStat s { s with statsClosed := true, orchPC := 2 }
  | orchJoin (s : TState) :
      s.orchPC = 2 → s.aggDone = true →
      Step env dirStat s { s with orchPC := 3 }
  | orchReturn (s : TState) :
      s.orchPC = 3 →
      Step env dirStat s { s with result := some s.aggTotal, orchPC := 4 }

/-- The states a `traverse workers dir` run can reach: the reflexive
transitive closure of `Step` from the initial state, with the task list and
summary stat the producer's walk of `root` yields. -/
def Reachable (env : ReadEnv) (root : FS) (w : Nat) (s : TState) : Prop :=
  Relation.ReflTransGen (Step env (walk root).2) (initState (walk root).1 w) s

/-- The value `traverse` returns for a given walk output: every emitted
worker stat plus the producer's summary stat. -/
def traverseSpec (env : ReadEnv) (root : FS) : Stats :=
  (queueStats env (walk root).1).Add (walk root).2

/-- The stat a worker still has to send, zero otherwise. -/
def wpending : WState → Stats
  | WState.emitting st => st
  | _ => Stats.zero

/-- Sum of the stats the workers still have to send. -/
def pendSum (ws : List WState) : Stats := statsSum (ws.map wpending)

/-- The stat a single task will contribute once some worker processes it
(zero when its open/read/close fails). -/
def task1 (env : ReadEnv) (t : String) : Stats := wpending (procTask env t)

/-- The conserved quantity of a run: the aggregator's running total plus
everything still in flight — stats queued in `statsCh`, stats a worker has
read but not yet sent, the eventual contributions of tasks queued in `ch`
or not yet sent by the producer, and the producer's summary stat while it
is still unsent. -/
def ledger (env : ReadEnv) (dirStat : Stats) (s : TState) : Stats :=
  (((s.aggTotal.Add (statsSum s.statsQ)).Add (pendSum s.workers)).Add
      (queueStats env (s.taskQ ++ s.prodRem))).Add
    (if s.prodPC = ProdPC.sending then dirStat else Stats.zero)

/-! ### A deterministic scheduler

`stepFn` picks, of the enabled `Step` actions, the first in a fixed priority
order; iterating it (`runN`) yields one concrete execution of the system,
used to exhibit reachable final states on concrete inputs. -/

/-- Index of the first worker at its loop head. -/
def firstIdle : List WState → Option Nat
  | [] => none
  | WState.idle :: _ => some 0
  | _ :: tl => (firstIdle tl).map (· + 1)

/-- Index and stat of the first worker with an unsent stat. -/
def firstEmitting : List WState → Option (Nat × Stats)
  | [] => none
  | WState.emitting st :: _ => some (0, st)
  | _ :: tl => (firstEmitting tl).map (fun p => (p.1 + 1, p.2))

/-- The producer's next action, if any. -/
def pStep (dirStat : Stats) (s : TState) : Option TState :=
  match s.prodPC, s.prodRem with
  | ProdPC.sending, t :: rest =>
    some { s with prodRem := rest, taskQ := s.taskQ ++ [t] }
  | ProdPC.sending, [] =>
    some { s with statsQ := s.statsQ ++ [dirStat], prodPC := ProdPC.statSent }
  | ProdPC.statSent, _ =>
    some { s with tasksClosed := true, prodPC := ProdPC.closed }
  | ProdPC.closed, _ => none

/-- A take by the first idle worker, if a task is queued. -/
def wTake (env : ReadEnv) (s : TState) : Option TState :=
  match s.taskQ with
  | [] => none
  | t :: rest =>
    match firstIdle s.workers with
    | none => none
    | some i =>
      some { s with taskQ := rest, workers := s.workers.set i (procTask env t) }

/-- A send by the first worker holding an unsent stat. -/
def wEmit (s : TState) : Option TState :=
  match firstEmitting s.workers with
  | none => none
  | some (i, st) =>
    some { s with statsQ := s.statsQ ++ [st], workers := s.workers.set i WState.idle }

/-- Loop exit by the first idle worker once the task queue is closed and
drained. -/
def wFinish (s : TState) : Option TState :=
  if s.taskQ = [] ∧ s.tasksClosed = true then
    match firstIdle s.workers with
    | none => none
    | some i => some { s with workers := s.workers.set i WState.finished }
  else none

/-- The orchestrator's next action, if any. -/
def oStep (s : TState) : Option TState :=
  if s.orchPC = 0 ∧ s.workers.all (fun x => x = WState.finished) then
    some { s with orchPC := 1 }
  else if s.orchPC = 1 then some { s with statsClosed := true, orchPC := 2 }
  else if s.orchPC = 2 ∧ s.aggDone = true then some { s with orchPC := 3 }
  else if s.orchPC = 3 then some { s with result := some s.aggTotal, orchPC := 4 }
  else none

/-- The aggregator's next action, if any. -/
def aStep (s : TState) : Option TState :=
  match s.statsQ with
  | st :: rest => some { s with statsQ := rest, aggTotal := s.aggTotal.Add st }
  | [] =>
    if s.statsClosed = true ∧ s.aggDone = false then some { s with aggDone := true }
    else none

/-- The first enabled action in priority order. -/
def stepFn (env : ReadEnv) (dirStat : Stats) (s : TState) : Option TState :=
  match pStep dirStat s with
  | some s' => some s'
  | none =>
    match wTake env s with
    | some s' => some s'
    | none =>
      match wEmit s with
      | some s' => some s'
      | none =>
        match wFinish s with
        | some s' => some s'
        | none =>
          match oStep s with
          | some s' => some s'
          | none => aStep s

/-- Iterate the scheduler `n` times (stopping at a stuck state). -/
def runN (env : ReadEnv) (dirStat : Stats) : Nat → TState → TState
  | 0, s => s
  | n + 1, s =>
    match stepFn env dirStat s with
    | none => s
    | some s' => runN env dirStat n s'

/-! ### The output log and exit codes (main.go:147-187)

`main` opens the output file with `os.OpenFile(outputFile,
syscall.O_APPEND, 0644)`.  `os.OpenFile` passes the flag straight to
`open(2)`; the low two bits of the flag are the access mode, and
`syscall.O_APPEND` (0o2000 on Linux) sets none of them, so the descriptor
is opened `O_RDONLY|O_APPEND`.  A `write(2)` on such a descriptor fails
with `EBADF`; `fmt.Fprintf` returns that error and main.go:180 discards
it.  The model implements exactly this flag semantics. -/

def O_RDONLY : Nat := 0
def O_WRONLY : Nat := 1
def O_RDWR : Nat := 2
def O_ACCMODE : Nat := 3
def O_APPEND : Nat := 1024
def O_CREAT : Nat := 64

/-- An open descriptor for the output file: only its access mode matters for
whether writes succeed. -/
structure FileHandle where
  accMode : Nat
  deriving DecidableEq, Repr

/-- Model of `os.OpenFile(path, flags, perm)` on the output path, for the
flag values `main` uses (no `O_CREAT`, so a missing file is `ENOENT`,
modelled as `error`).  `content` is the file's current content, `none` when
the file does not exist. -/
def openFile (content : Option String) (flags : Nat) : Except Unit FileHandle :=
  match content with
  | none => Except.error ()
  | some _ => Except.ok ⟨flags &&& O_ACCMODE⟩

/-- Model of `write(2)` through a descriptor: appends when the descriptor
was opened with write access, fails with `EBADF` otherwise. -/
def handleWrite (h : FileHandle) (content data : String) : Except Unit String :=
  if h.accMode = O_WRONLY ∨ h.accMode = O_RDWR then Except.ok (content ++ data)
  else Except.error ()

/-- `fmt.Fprintf(f, ...)` at main.go:180: the write's error is discarded, so
a failing write leaves the file as it was. -/
def applyWrite (h : FileHandle) (content data : String) : String :=
  match handleWrite h content data with
  | Except.ok c => c
  | Except.error _ => content

/-- The header `ioutil.WriteFile` writes on first creation (main.go:159). -/
def headerLine : String :=
  "workers\tfiles\tdirs\tbytes\ttime (seconds)\tbandwidth (per second)\n"

/-- The output-file handling of `main` (main.go:156-186): open the output
path with `syscall.O_APPEND`; when it does not exist, create it with the
header via `ioutil.WriteFile` (exiting with status 2 when that fails,
modelled as `error`), then reopen the same way; finally `Fprintf` the data
line, whose error is discarded.  Returns the file's final content. -/
def outputRun (existing : Option String) (dataLine : String)
    (createFails : Bool) : Except Unit (Option String) :=
  match existing with
  | some c =>
    match openFile (some c) O_APPEND with
    | Except.ok h => Except.ok (some (applyWrite h c dataLine))
    | Except.error _ => Except.ok (some c)
  | none =>
    if createFails then Except.error ()
    else
      match openFile (some headerLine) O_APPEND with
      | Except.ok h => Except.ok (some (applyWrite h headerLine dataLine))
      | Except.error _ => Except.ok (some headerLine)

/-- The process exit code as a function of what can end the process early
(main.go:147-163): 1 when the argument count is wrong, 2 when creating a
missing output file fails, otherwise 0 — every traversal/read/open/close
error is only logged (implicit exit 0 on normal completion). -/
def mainExitCode (nArgs : Nat) (outputExists : Bool) (createFails : Bool) : Nat :=
  if nArgs ≠ 1 then 1
  else if outputExists = false ∧ createFails = true then 2
  else 0

/-- Whether a producer event is the summary-stat send. -/
def isSendStat : WalkEvent → Bool
  | WalkEvent.sendStat _ => true
  | _ => false

/-- Whether a producer event is the task-channel close. -/
def isCloseEvent : WalkEvent → Bool
  | WalkEvent.closeTasks => true
  | _ => false

/-! ### Concrete instances (the spec's §8 scenario and the error cases) -/

/-- An environment where every open/read/close succeeds and the three files
of the §8 scenario have sizes 10, 20, 30. -/
def envW : ReadEnv :=
  { openOk := fun _ => true
    copyRes := fun p =>
      if p = "r/a" then Except.ok 10
      else if p = "r/b" then Except.ok 20
      else Except.ok 30
    closeOk := fun _ => true }

/-- The §8 scenario tree: root directory with files `r/a`, `r/b` and a
subdirectory `r/s` containing `r/s/c` — 3 regular files in 2 directories. -/
def rootW : FS :=
  FS.dir "r" false (FS.fcons (FS.file "r/a") (FS.fcons (FS.file "r/b")
    (FS.fcons (FS.dir "r/s" false (FS.fcons (FS.file "r/s/c") FS.fnil)) FS.fnil)))

/-- A finished run of the scenario with 1 worker. -/
def final1 : TState := runN envW (walk rootW).2 60 (initState (walk rootW).1 1)

/-- A finished run of the scenario with 2 workers. -/
def final2 : TState := runN envW (walk rootW).2 60 (initState (walk rootW).1 2)

/-- A finished run of the scenario with 8 workers. -/
def final8 : TState := runN envW (walk rootW).2 80 (initState (walk rootW).1 8)

/-- An environment where every close fails (reads succeed, 4 bytes). -/
def envClose : ReadEnv :=
  { openOk := fun _ => true
    copyRes := fun _ => Except.ok 4
    closeOk := fun _ => false }

/-- A tree whose first entry fails `lstat` while a later sibling `r/b` is a
perfectly readable regular file. -/
def cexTree : FS :=
  FS.dir "r" false (FS.fcons (FS.statErr "r/a") (FS.fcons (FS.file "r/b") FS.fnil))

/-- A root whose very first `lstat` fails (e.g. the directory does not
exist). -/
def rootE : FS := FS.statErr "missing"

/-- A finished run over the failing root with 1 worker. -/
def finalE : TState := runN envW (walk rootE).2 30 (initState (walk rootE).1 1)

/-! ## Algebra of `Stats.Add` and the list sums -/

@[simp] theorem Add_files (a b : Stats) : (a.Add b).files = a.files + b.files := rfl

@[simp] theorem Add_dirs (a b : Stats) : (a.Add b).dirs = a.dirs + b.dirs := rfl

@[simp] theorem Add_bytes (a b : Stats) : (a.Add b).bytes = a.bytes + b.bytes := rfl

@[simp] theorem zero_files : Stats.zero.files = 0 := rfl

@[simp] theorem zero_dirs : Stats.zero.dirs = 0 := rfl

@[simp] theorem zero_bytes : Stats.zero.bytes = 0 := rfl

theorem Stats.eq_of_parts {a b : Stats} (hf : a.files = b.files)
    (hd : a.dirs = b.dirs) (hb : a.bytes = b.bytes) : a = b := by
  cases a; cases b; simp_all

theorem Add_comm (a b : Stats) : a.Add b = b.Add a := by
  apply Stats.eq_of_parts <;> simp only [Add_files, Add_dirs, Add_bytes] <;> omega

theorem Add_assoc (a b c : Stats) : (a.Add b).Add c = a.Add (b.Add c) := by
  apply Stats.eq_of_parts <;> simp only [Add_files, Add_dirs, Add_bytes] <;> omega

@[simp] theorem zero_Add (a : Stats) : Stats.zero.Add a = a := by
  apply Stats.eq_of_parts <;>
    simp only [Add_files, Add_dirs, Add_bytes, zero_files, zero_dirs, zero_bytes] <;> omega

@[simp] theorem Add_zero (a : Stats) : a.Add Stats.zero = a := by
  apply Stats.eq_of_parts <;>
    simp only [Add_files, Add_dirs, Add_bytes, zero_files, zero_dirs, zero_bytes] <;> omega

@[simp] theorem statsSum_nil : statsSum [] = Stats.zero := rfl

@[simp] theorem statsSum_cons (a : Stats) (l : List Stats) :
    statsSum (a :: l) = a.Add (statsSum l) := rfl

theorem statsSum_append (l₁ l₂ : List Stats) :
    statsSum (l₁ ++ l₂) = (statsSum l₁).Add (statsSum l₂) := by
  induction l₁ with
  | nil => simp
  | cons a l ih => simp [ih, Add_assoc]

theorem statsSum_perm {l₁ l₂ : List Stats} (h : l₁.Perm l₂) :
    statsSum l₁ = statsSum l₂ := by
  induction h with
  | nil => rfl
  | cons a _ ih => simp [ih]
  | swap a b l =>
    apply Stats.eq_of_parts <;>
      simp only [statsSum_cons, Add_files, Add_dirs, Add_bytes] <;> omega
  | trans _ _ ih₁ ih₂ => exact ih₁.trans ih₂

theorem mergeAll_eq (z : Stats) (l : List Stats) : mergeAll z l = z.Add (statsSum l) := by
  induction l generalizing z with
  | nil => simp [mergeAll]
  | cons a l ih =>
    show mergeAll (z.Add a) l = _
    rw [ih, Add_assoc]
    simp

@[simp] theorem pendSum_nil : pendSum [] = Stats.zero := rfl

@[simp] theorem pendSum_cons (x : WState) (l : List WState) :
    pendSum (x :: l) = (wpending x).Add (pendSum l) := rfl

theorem pendSum_replicate_idle (w : Nat) :
    pendSum (List.replicate w WState.idle) = Stats.zero := by
  induction w with
  | zero => rfl
  | succ n ih => simp [List.replicate_succ, ih, wpending]

theorem pendSum_all_finished {ws : List WState}
    (h : ∀ x ∈ ws, x = WState.finished) : pendSum ws = Stats.zero := by
  induction ws with
  | nil => rfl
  | cons x l ih =>
    have hx := h x (by simp)
    subst hx
    simp [wpending, ih fun y hy => h y (by simp [hy])]

theorem pendSum_set (ws : List WState) (i : Nat) (a b : WState)
    (h : ws[i]? = some a) :
    (pendSum (ws.set i b)).Add (wpending a) = (pendSum ws).Add (wpending b) := by
  induction ws generalizing i with
  | nil => simp at h
  | cons x l ih =>
    cases i with
    | zero =>
      simp only [List.getElem?_cons_zero, Option.some.injEq] at h
      subst h
      apply Stats.eq_of_parts <;>
        simp only [List.set_cons_zero, pendSum_cons, Add_files, Add_dirs, Add_bytes] <;>
        omega
    | succ j =>
      simp only [List.getElem?_cons_succ] at h
      have := ih j h
      apply Stats.eq_of_parts <;>
        simp only [List.set_cons_succ, pendSum_cons, Add_files, Add_dirs, Add_bytes] <;>
        have hf := congrArg Stats.files this <;> have hd := congrArg Stats.dirs this <;>
        have hb := congrArg Stats.bytes this <;>
        simp only [Add_files, Add_dirs, Add_bytes] at hf hd hb <;> omega

@[simp] theorem queueStats_nil (env : ReadEnv) : queueStats env [] = Stats.zero := rfl

theorem queueStats_cons (env : ReadEnv) (t : String) (l : List String) :
    queueStats env (t :: l) = (task1 env t).Add (queueStats env l) := by
  cases h : readFile1 env t with
  | none => simp [queueStats, List.filterMap_cons, h, task1, procTask, wpending]
  | some st => simp [queueStats, List.filterMap_cons, h, task1, procTask, wpending]

theorem queueStats_append (env : ReadEnv) (l₁ l₂ : List String) :
    queueStats env (l₁ ++ l₂) = (queueStats env l₁).Add (queueStats env l₂) := by
  induction l₁ with
  | nil => simp
  | cons t l ih => simp [queueStats_cons, ih, Add_assoc]

/-! ## The walk on error-free trees, and the shape of a worker's emission -/

theorem walkF_noErrors (t : FS) (h : noErrors t = true) :
    ∀ ts ds, walkF t (ts, ds) = ((ts ++ filePaths t, ds + countDirs t), false) := by
  induction t with
  | file p => intro ts ds; simp [walkF, filePaths, countDirs]
  | other p => intro ts ds; simp [walkF, filePaths, countDirs]
  | statErr p => simp [noErrors] at h
  | dir p readErr es ih =>
    simp only [noErrors, Bool.and_eq_true, Bool.not_eq_eq_eq_not, Bool.not_true] at h
    obtain ⟨hre, hes⟩ := h
    subst hre
    intro ts ds
    simp only [walkF, ih hes, filePaths, countDirs, Prod.mk.injEq, true_and, and_true]
    omega
  | fnil => intro ts ds; simp [walkF, filePaths, countDirs]
  | fcons hd tl ih₁ ih₂ =>
    simp only [noErrors, Bool.and_eq_true] at h
    intro ts ds
    simp only [walkF, ih₁ h.1, ih₂ h.2, filePaths, countDirs, Prod.mk.injEq,
      List.append_assoc, true_and, and_true]
    omega

theorem walk_noErrors (root : FS) (h : noErrors root = true) :
    walk root = (filePaths root, ⟨0, (countDirs root : Int), 0⟩) := by
  simp [walk, walkF_noErrors root h [] 0]

theorem readFile1_isSome_eq (env : ReadEnv) (p : String)
    (h : (readFile1 env p).isSome = true) :
    readFile1 env p = some ⟨1, 0, fileSize env p⟩ := by
  unfold readFile1 fileSize at *
  cases ho : env.openOk p <;> cases hc : env.copyRes p <;>
    cases hk : env.closeOk p <;> simp_all

theorem queueStats_all_readable (env : ReadEnv) (l : List String)
    (h : ∀ p ∈ l, (readFile1 env p).isSome = true) :
    queueStats env l = ⟨(l.length : Int), 0, (l.map (fileSize env)).sum⟩ := by
  induction l with
  | nil => simp; rfl
  | cons p l ih =>
    have hp := readFile1_isSome_eq env p (h p (by simp))
    have ihl := ih fun q hq => h q (by simp [hq])
    rw [queueStats_cons, ihl]
    apply Stats.eq_of_parts <;> simp [task1, procTask, hp, wpending]
    omega

/-! ## Control invariants of the orchestration

`CtrlInv` collects the safety facts about the shutdown protocol of
`traverse`: the producer's deferred close is the only close of the task
channel, workers only exit once that channel is closed and drained, the
stats channel is closed only at orchestrator phase 2 (which requires every
worker finished), the aggregator only signals done once the stats channel is
closed and drained, and a returned result is the aggregator's frozen
total. -/

structure CtrlInv (w : Nat) (s : TState) : Prop where
  wlen : s.workers.length = w
  remEmpty : s.prodPC ≠ ProdPC.sending → s.prodRem = []
  closedIff : s.tasksClosed = true ↔ s.prodPC = ProdPC.closed
  finClosed : WState.finished ∈ s.workers → s.tasksClosed = true
  orchFin : 1 ≤ s.orchPC → ∀ ws ∈ s.workers, ws = WState.finished
  statsIff : s.statsClosed = true ↔ 2 ≤ s.orchPC
  orchAgg : 3 ≤ s.orchPC → s.aggDone = true
  aggDrained : s.aggDone = true → s.statsClosed = true ∧ s.statsQ = []
  resFrozen : ∀ t, s.result = some t → s.aggDone = true ∧ t = s.aggTotal
  allFinQ : (∀ ws ∈ s.workers, ws = WState.finished) → s.taskQ = []

theorem ctrl_init (tasks : List String) (w : Nat) :
    CtrlInv w (initState tasks w) := by
  constructor <;> simp [initState]

theorem procTask_ne_finished (env : ReadEnv) (t : String) :
    procTask env t ≠ WState.finished := by
  unfold procTask
  cases readFile1 env t <;> simp

/-- With at least one worker, a state where every worker has finished has a
closed task channel. -/
theorem allfin_tasksClosed {w : Nat} {s : TState} (hw : 1 ≤ w) (h : CtrlInv w s)
    (hall : ∀ ws ∈ s.workers, ws = WState.finished) : s.tasksClosed = true := by
  exact h.finClosed (by
    obtain ⟨a, ha⟩ := List.length_pos_iff_exists_mem.mp (by rw [h.wlen]; omega)
    have := hall a ha
    subst this
    exact ha)

theorem ctrl_preserved {env : ReadEnv} {dirStat : Stats} {w : Nat} (hw : 1 ≤ w)
    {s s' : TState} (hs : Step env dirStat s s') (h : CtrlInv w s) : CtrlInv w s' := by
  cases hs with
  | prodSend t rest hpc hrem =>
    refine ⟨h.wlen, ?_, h.closedIff, h.finClosed, h.orchFin, h.statsIff, h.orchAgg,
      h.aggDrained, h.resFrozen, ?_⟩
    · intro hne; exact absurd hpc hne
    · intro hall
      have hc := allfin_tasksClosed hw h hall
      have hcp := h.closedIff.mp hc
      rw [hpc] at hcp
      exact absurd hcp (by simp)
  | prodStat hpc hrem =>
    refine ⟨h.wlen, ?_, ?_, ?_, h.orchFin, h.statsIff, h.orchAgg, ?_, h.resFrozen, ?_⟩
    · intro _; exact hrem
    · show s.tasksClosed = true ↔ ProdPC.statSent = ProdPC.closed
      constructor
      · intro hc
        have hcp := h.closedIff.mp hc
        rw [hpc] at hcp
        exact absurd hcp (by simp)
      · intro hpc'; exact absurd hpc' (by simp)
    · intro hf
      have hc := h.finClosed hf
      have hcp := h.closedIff.mp hc
      rw [hpc] at hcp
      exact absurd hcp (by simp)
    · intro hd
      have hsc := (h.aggDrained hd).1
      have h2 := h.statsIff.mp hsc
      have hall := h.orchFin (by omega)
      have hc := allfin_tasksClosed hw h hall
      have hcp := h.closedIff.mp hc
      rw [hpc] at hcp
      exact absurd hcp (by simp)
    · intro hall; exact h.allFinQ hall
  | prodClose hpc =>
    refine ⟨h.wlen, ?_, ?_, ?_, h.orchFin, h.statsIff, h.orchAgg, h.aggDrained,
      h.resFrozen, h.allFinQ⟩
    · intro _; exact h.remEmpty (by rw [hpc]; simp)
    · show (true = true) ↔ (ProdPC.closed = ProdPC.closed)
      simp
    · intro _; rfl
  | workerTake i t rest hi hq =>
    have hlt : i < s.workers.length := (List.getElem?_eq_some.mp hi).1
    refine ⟨?_, h.remEmpty, h.closedIff, ?_, ?_, h.statsIff, h.orchAgg, h.aggDrained,
      h.resFrozen, ?_⟩
    · show (s.workers.set i (procTask env t)).length = w
      rw [List.length_set]; exact h.wlen
    · intro hf
      rcases List.mem_or_eq_of_mem_set hf with hmem | heq
      · exact h.finClosed hmem
      · exact absurd heq.symm (procTask_ne_finished env t)
    · intro h1
      have hall := h.orchFin h1
      have hidle := hall WState.idle (List.getElem?_mem hi)
      simp at hidle
    · intro hall
      have hmem : procTask env t ∈ s.workers.set i (procTask env t) :=
        List.getElem?_mem (List.getElem?_set_self hlt)
      have hfin := hall _ hmem
      exact absurd hfin (procTask_ne_finished env t)
  | workerEmit i st hi =>
    have hlt : i < s.workers.length := (List.getElem?_eq_some.mp hi).1
    refine ⟨?_, h.remEmpty, h.closedIff, ?_, ?_, h.statsIff, h.orchAgg, ?_,
      h.resFrozen, ?_⟩
    · show (s.workers.set i WState.idle).length = w
      rw [List.length_set]; exact h.wlen
    · intro hf
      rcases List.mem_or_eq_of_mem_set hf with hmem | heq
      · exact h.finClosed hmem
      · simp at heq
    · intro h1
      have hall := h.orchFin h1
      have hem := hall (WState.emitting st) (List.getElem?_mem hi)
      simp at hem
    · intro hd
      have hsc := (h.aggDrained hd).1
      have h2 := h.statsIff.mp hsc
      have hall := h.orchFin (by omega)
      have hem := hall (WState.emitting st) (List.getElem?_mem hi)
      simp at hem
    · intro hall
      have hmem : WState.idle ∈ s.workers.set i WState.idle :=
        List.getElem?_mem (List.getElem?_set_self hlt)
      have hfin := hall _ hmem
      simp at hfin
  | workerFinish i hi hq hc =>
    refine ⟨?_, h.remEmpty, h.closedIff, ?_, ?_, h.statsIff, h.orchAgg, h.aggDrained,
      h.resFrozen, ?_⟩
    · show (s.workers.set i WState.finished).length = w
      rw [List.length_set]; exact h.wlen
    · intro _; exact hc
    · intro h1
      have hall := h.orchFin h1
      have hidle := hall WState.idle (List.getElem?_mem hi)
      simp at hidle
    · intro _; exact hq
  | aggRecv st rest hq =>
    refine ⟨h.wlen, h.remEmpty, h.closedIff, h.finClosed, h.orchFin, h.statsIff,
      h.orchAgg, ?_, ?_, h.allFinQ⟩
    · intro hd
      have he := (h.aggDrained hd).2
      rw [hq] at he
      exact absurd he (by simp)
    · intro t ht
      have hd := (h.resFrozen t ht).1
      have he := (h.aggDrained hd).2
      rw [hq] at he
      exact absurd he (by simp)
  | aggFinish hsc hq hnd =>
    refine ⟨h.wlen, h.remEmpty, h.closedIff, h.finClosed, h.orchFin, h.statsIff,
      ?_, ?_, ?_, h.allFinQ⟩
    · intro _; rfl
    · intro _; exact ⟨hsc, hq⟩
    · intro t ht
      have hd := (h.resFrozen t ht).1
      rw [hnd] at hd
      exact absurd hd (by simp)
  | orchWait h0 hall =>
    refine ⟨h.wlen, h.remEmpty, h.closedIff, h.finClosed, ?_, ?_, ?_, h.aggDrained,
      h.resFrozen, h.allFinQ⟩
    · intro _; exact hall
    · show s.statsClosed = true ↔ 2 ≤ 1
      constructor
      · intro hsc
        have h2 := h.statsIff.mp hsc
        omega
      · intro habs; omega
    · intro habs
      have h31 : (3 : Nat) ≤ 1 := habs
      omega
  | orchClose h1 =>
    refine ⟨h.wlen, h.remEmpty, h.closedIff, h.finClosed, ?_, ?_, ?_, ?_,
      h.resFrozen, h.allFinQ⟩
    · intro _; exact h.orchFin (by omega)
    · show (true = true) ↔ 2 ≤ 2
      simp
    · intro habs
      have h32 : (3 : Nat) ≤ 2 := habs
      omega
    · intro hd
      exact ⟨rfl, (h.aggDrained hd).2⟩
  | orchJoin h2 hd =>
    refine ⟨h.wlen, h.remEmpty, h.closedIff, h.finClosed, ?_, ?_, ?_, h.aggDrained,
      h.resFrozen, h.allFinQ⟩
    · intro _; exact h.orchFin (by omega)
    · show s.statsClosed = true ↔ 2 ≤ 3
      constructor
      · intro _; omega
      · intro _; exact h.statsIff.mpr (by omega)
    · intro _; exact hd
  | orchReturn h3 =>
    refine ⟨h.wlen, h.remEmpty, h.closedIff, h.finClosed, ?_, ?_, ?_, h.aggDrained,
      ?_, h.allFinQ⟩
    · intro _; exact h.orchFin (by omega)
    · show s.statsClosed = true ↔ 2 ≤ 4
      constructor
      · intro _; omega
      · intro _; exact h.statsIff.mpr (by omega)
    · intro _; exact h.orchAgg (by omega)
    · intro t ht
      simp only [Option.some.injEq] at ht
      exact ⟨h.orchAgg (by omega), ht.symm⟩

theorem reachable_ctrl {env : ReadEnv} {root : FS} {w : Nat} (hw : 1 ≤ w)
    {s : TState} (hr : Reachable env root w s) : CtrlInv w s := by
  induction hr with
  | refl => exact ctrl_init (walk root).1 w
  | tail _ hstep ih => exact ctrl_preserved hw hstep ih

/-! ## The conservation ledger

Every step of the system moves stats between the aggregator's total, the
stats queue, the workers' unsent emissions, the unprocessed tasks and the
producer's unsent summary stat, leaving their sum unchanged. -/

theorem ledger_preserved {env : ReadEnv} {dirStat : Stats} {s s' : TState}
    (hs : Step env dirStat s s') :
    ledger env dirStat s' = ledger env dirStat s := by
  cases hs with
  | prodSend t rest hpc hrem =>
    unfold ledger
    rw [hrem]
    apply Stats.eq_of_parts <;>
      simp [queueStats_append, queueStats_cons, Int.add_assoc]
  | prodStat hpc hrem =>
    unfold ledger
    rw [hrem, hpc]
    apply Stats.eq_of_parts <;>
      simp [statsSum_append] <;> omega
  | prodClose hpc =>
    unfold ledger
    rw [hpc]
    apply Stats.eq_of_parts <;> simp
  | workerTake i t rest hi hq =>
    unfold ledger
    rw [hq]
    have hset := pendSum_set s.workers i WState.idle (procTask env t) hi
    have hf := congrArg Stats.files hset
    have hd := congrArg Stats.dirs hset
    have hb := congrArg Stats.bytes hset
    simp only [Add_files, Add_dirs, Add_bytes] at hf hd hb
    apply Stats.eq_of_parts <;>
      simp [queueStats_append, queueStats_cons, task1, wpending] at * <;> omega
  | workerEmit i st hi =>
    unfold ledger
    have hset := pendSum_set s.workers i (WState.emitting st) WState.idle hi
    have hf := congrArg Stats.files hset
    have hd := congrArg Stats.dirs hset
    have hb := congrArg Stats.bytes hset
    simp only [Add_files, Add_dirs, Add_bytes] at hf hd hb
    apply Stats.eq_of_parts <;>
      simp [statsSum_append, wpending] at * <;> omega
  | workerFinish i hi hq hc =>
    unfold ledger
    have hset := pendSum_set s.workers i WState.idle WState.finished hi
    have hf := congrArg Stats.files hset
    have hd := congrArg Stats.dirs hset
    have hb := congrArg Stats.bytes hset
    simp only [Add_files, Add_dirs, Add_bytes] at hf hd hb
    apply Stats.eq_of_parts <;> simp [wpending] at * <;> omega
  | aggRecv st rest hq =>
    unfold ledger
    rw [hq]
    apply Stats.eq_of_parts <;> simp [Int.add_assoc]
  | aggFinish hsc hq hnd => rfl
  | orchWait h0 hall => rfl
  | orchClose h1 => rfl
  | orchJoin h2 hd => rfl
  | orchReturn h3 => rfl

theorem ledger_init (env : ReadEnv) (dirStat : Stats) (tasks : List String) (w : Nat) :
    ledger env dirStat (initState tasks w) = (queueStats env tasks).Add dirStat := by
  unfold ledger initState
  apply Stats.eq_of_parts <;> simp [pendSum_replicate_idle]

theorem reachable_ledger {env : ReadEnv} {root : FS} {w : Nat} {s : TState}
    (hr : Reachable env root w s) :
    ledger env (walk root).2 s = traverseSpec env root := by
  induction hr with
  | refl => exact ledger_init env (walk root).2 (walk root).1 w
  | tail _ hstep ih => exact (ledger_preserved hstep).trans ih

/-- Any result a `traverse` run can return equals `traverseSpec`: the ledger
collapses to the aggregator's total once every queue is drained, every
worker is finished and the producer is done. -/
theorem result_eq {env : ReadEnv} {root : FS} {w : Nat} (hw : 1 ≤ w)
    {s : TState} {t : Stats} (hr : Reachable env root w s)
    (hres : s.result = some t) : t = traverseSpec env root := by
  have hc := reachable_ctrl hw hr
  have hl := reachable_ledger hr
  obtain ⟨hagg, ht⟩ := hc.resFrozen t hres
  obtain ⟨hsc, hq⟩ := hc.aggDrained hagg
  have hall := hc.orchFin (by have h2 := hc.statsIff.mp hsc; omega)
  have htc := allfin_tasksClosed hw hc hall
  have hpc := hc.closedIff.mp htc
  have hrem := hc.remEmpty (by rw [hpc]; simp)
  have htq := hc.allFinQ hall
  have hpend := pendSum_all_finished hall
  rw [ht]
  rw [← hl]
  unfold ledger
  rw [hq, hrem, htq, hpend, hpc]
  apply Stats.eq_of_parts <;> simp

/-! ## Soundness of the deterministic scheduler -/

theorem firstIdle_spec (ws : List WState) (i : Nat) (h : firstIdle ws = some i) :
    ws[i]? = some WState.idle := by
  induction ws generalizing i with
  | nil => simp [firstIdle] at h
  | cons x tl ih =>
    cases x with
    | idle =>
      simp only [firstIdle, Option.some.injEq] at h
      subst h
      simp
    | emitting st =>
      simp only [firstIdle, Option.map_eq_some'] at h
      obtain ⟨j, hj, hji⟩ := h
      subst hji
      simpa using ih j hj
    | finished =>
      simp only [firstIdle, Option.map_eq_some'] at h
      obtain ⟨j, hj, hji⟩ := h
      subst hji
      simpa using ih j hj

theorem firstEmitting_spec (ws : List WState) (i : Nat) (st : Stats)
    (h : firstEmitting ws = some (i, st)) : ws[i]? = some (WState.emitting st) := by
  induction ws generalizing i with
  | nil => simp [firstEmitting] at h
  | cons x tl ih =>
    cases x with
    | idle =>
      simp only [firstEmitting, Option.map_eq_some'] at h
      obtain ⟨p, hp, hpi⟩ := h
      cases p
      simp only [Prod.mk.injEq] at hpi
      obtain ⟨h1, h2⟩ := hpi
      subst h1; subst h2
      simpa using ih _ hp
    | emitting st0 =>
      simp only [firstEmitting, Option.some.injEq, Prod.mk.injEq] at h
      obtain ⟨h1, h2⟩ := h
      subst h1; subst h2
      simp
    | finished =>
      simp only [firstEmitting, Option.map_eq_some'] at h
      obtain ⟨p, hp, hpi⟩ := h
      cases p
      simp only [Prod.mk.injEq] at hpi
      obtain ⟨h1, h2⟩ := hpi
      subst h1; subst h2
      simpa using ih _ hp

theorem all_finished_of_all {ws : List WState}
    (h : ws.all (fun x => x = WState.finished) = true) :
    ∀ x ∈ ws, x = WState.finished := by
  intro x hx
  have hb := List.all_eq_true.mp h x hx
  simpa using hb

theorem pStep_sound {env : ReadEnv} {dirStat : Stats} {s s' : TState}
    (h : pStep dirStat s = some s') : Step env dirStat s s' := by
  unfold pStep at h
  split at h
  · rename_i t rest hpc hrem
    simp only [Option.some.injEq] at h
    rw [← h]
    exact Step.prodSend s t rest hpc hrem
  · rename_i hpc hrem
    simp only [Option.some.injEq] at h
    rw [← h]
    exact Step.prodStat s hpc hrem
  · rename_i x hpc
    simp only [Option.some.injEq] at h
    rw [← h]
    exact Step.prodClose s hpc
  · simp at h

theorem wTake_sound {env : ReadEnv} {dirStat : Stats} {s s' : TState}
    (h : wTake env s = some s') : Step env dirStat s s' := by
  unfold wTake at h
  cases hq : s.taskQ with
  | nil => rw [hq] at h; simp at h
  | cons t rest =>
    rw [hq] at h
    cases hfi : firstIdle s.workers with
    | none => rw [hfi] at h; simp at h
    | some i =>
      rw [hfi] at h
      simp only [Option.some.injEq] at h
      rw [← h]
      exact Step.workerTake s i t rest (firstIdle_spec _ _ hfi) hq

theorem wEmit_sound {env : ReadEnv} {dirStat : Stats} {s s' : TState}
    (h : wEmit s = some s') : Step env dirStat s s' := by
  unfold wEmit at h
  cases hfe : firstEmitting s.workers with
  | none => rw [hfe] at h; simp at h
  | some p =>
    cases p with
    | mk i st =>
      rw [hfe] at h
      simp only [Option.some.injEq] at h
      rw [← h]
      exact Step.workerEmit s i st (firstEmitting_spec _ _ _ hfe)

theorem wFinish_sound {env : ReadEnv} {dirStat : Stats} {s s' : TState}
    (h : wFinish s = some s') : Step env dirStat s s' := by
  unfold wFinish at h
  split at h
  · rename_i hcond
    cases hfi : firstIdle s.workers with
    | none => rw [hfi] at h; simp at h
    | some i =>
      rw [hfi] at h
      simp only [Option.some.injEq] at h
      rw [← h]
      exact Step.workerFinish s i (firstIdle_spec _ _ hfi) hcond.1 hcond.2
  · simp at h

theorem oStep_sound {env : ReadEnv} {dirStat : Stats} {s s' : TState}
    (h : oStep s = some s') : Step env dirStat s s' := by
  unfold oStep at h
  split at h
  · rename_i hcond
    simp only [Option.some.injEq] at h
    rw [← h]
    exact Step.orchWait s hcond.1 (all_finished_of_all hcond.2)
  · split at h
    · rename_i hcond
      simp only [Option.some.injEq] at h
      rw [← h]
      exact Step.orchClose s hcond
    · split at h
      · rename_i hcond
        simp only [Option.some.injEq] at h
        rw [← h]
        exact Step.orchJoin s hcond.1 hcond.2
      · split at h
        · rename_i hcond
          simp only [Option.some.injEq] at h
          rw [← h]
          exact Step.orchReturn s hcond
        · simp at h

theorem aStep_sound {env : ReadEnv} {dirStat : Stats} {s s' : TState}
    (h : aStep s = some s') : Step env dirStat s s' := by
  unfold aStep at h
  split at h
  · rename_i st rest hq
    simp only [Option.some.injEq] at h
    rw [← h]
    exact Step.aggRecv s st rest hq
  · rename_i hq
    split at h
    · rename_i hcond
      simp only [Option.some.injEq] at h
      rw [← h]
      exact Step.aggFinish s hcond.1 hq hcond.2
    · simp at h

theorem stepFn_sound {env : ReadEnv} {dirStat : Stats} {s s' : TState}
    (h : stepFn env dirStat s = some s') : Step env dirStat s s' := by
  unfold stepFn at h
  cases hp : pStep dirStat s with
  | some x =>
    rw [hp] at h
    simp only [Option.some.injEq] at h
    subst h
    exact pStep_sound hp
  | none =>
    rw [hp] at h
    cases ht : wTake env s with
    | some x =>
      rw [ht] at h
      simp only [Option.some.injEq] at h
      subst h
      exact wTake_sound ht
    | none =>
      rw [ht] at h
      cases he : wEmit s with
      | some x =>
        rw [he] at h
        simp only [Option.some.injEq] at h
        subst h
        exact wEmit_sound he
      | none =>
        rw [he] at h
        cases hf : wFinish s with
        | some x =>
          rw [hf] at h
          simp only [Option.some.injEq] at h
          subst h
          exact wFinish_sound hf
        | none =>
          rw [hf] at h
          cases ho : oStep s with
          | some x =>
            rw [ho] at h
            simp only [Option.some.injEq] at h
            subst h
            exact oStep_sound ho
          | none =>
            rw [ho] at h
            exact aStep_sound h

theorem runN_reachable (env : ReadEnv) (dirStat : Stats) (n : Nat) (s0 : TState) :
    Relation.ReflTransGen (Step env dirStat) s0 (runN env dirStat n s0) := by
  induction n generalizing s0 with
  | zero => exact Relation.ReflTransGen.refl
  | succ n ih =>
    show Relation.ReflTransGen (Step env dirStat) s0
      (match stepFn env dirStat s0 with
        | none => s0
        | some s1 => runN env dirStat n s1)
    cases hs : stepFn env dirStat s0 with
    | none => exact Relation.ReflTransGen.refl
    | some s1 => exact Relation.ReflTransGen.head (stepFn_sound hs) (ih s1)

/-! ## The claims -/

theorem readFile1_some_shape (env : ReadEnv) (p : String) (s : Stats)
    (h : readFile1 env p = some s) : s.files = 1 ∧ s.dirs = 0 := by
  unfold readFile1 at h
  cases ho : env.openOk p <;> cases hc : env.copyRes p <;>
    cases hk : env.closeOk p <;> (rw [ho, hc] at h; simp [hk] at h)
  rw [← h]
  simp

/-- C1: for every directory tree with F regular files (all readable) totaling
B bytes across D directories (including the root if it is a directory),
running the core traversal with any worker count ≥ 1 returns Stats with
files = F, dirs = D, bytes = B: any result a reachable state of the
`traverse` model reports equals exactly that triple. -/
theorem conservation (env : ReadEnv) (root : FS) (w : Nat) (s : TState) (t : Stats)
    (hw : 1 ≤ w) (hne : noErrors root = true)
    (hread : ∀ p ∈ filePaths root, (readFile1 env p).isSome = true)
    (hr : Reachable env root w s) (hres : s.result = some t) :
    t = ⟨(countFiles root : Int), (countDirs root : Int), totalBytes env root⟩ := by
  have h1 := result_eq hw hr hres
  rw [h1]
  unfold traverseSpec
  rw [walk_noErrors root hne]
  simp only []
  rw [queueStats_all_readable env (filePaths root) hread]
  apply Stats.eq_of_parts <;> simp [countFiles, totalBytes]

/-- C1 witness: the §8 scenario (3 files of 10, 20, 30 bytes in 2
directories) with 2 workers ends with result ⟨3, 2, 60⟩, which is exactly
(countFiles, countDirs, totalBytes) of the tree. -/
theorem conservation_witness :
    final2.result = some ⟨3, 2, 60⟩ ∧
      (⟨3, 2, 60⟩ : Stats) =
        ⟨(countFiles rootW : Int), (countDirs rootW : Int), totalBytes envW rootW⟩ :=
  ⟨by decide,
    conservation envW rootW 2 final2 ⟨3, 2, 60⟩ (by decide) (by decide) (by decide)
      (runN_reachable envW (walk rootW).2 60 (initState (walk rootW).1 2)) (by decide)⟩

/-- C2: for every file path taken from the task queue, the reader worker
emits a stat — with files = 1, bytes = the bytes read, dirs = 0 — iff open,
read-to-EOF and close all succeed; any open, read, or close failure (a close
failure after a successful full read included) emits nothing, and the file
then contributes nothing to the worker's output. -/
theorem reader_stat_iff (env : ReadEnv) (f : String) :
    (∀ s : Stats, readFile1 env f = some s ↔
       ∃ n : Nat, env.openOk f = true ∧ env.copyRes f = Except.ok n ∧
         env.closeOk f = true ∧ s = ⟨1, 0, (n : Int)⟩) ∧
    (∀ n : Nat, env.copyRes f = Except.ok n → env.closeOk f = false →
       readFile1 env f = none) ∧
    (readFile1 env f = none → readFile env [f] = []) := by
  refine ⟨?_, ?_, ?_⟩
  · intro s
    unfold readFile1
    cases ho : env.openOk f <;> cases hc : env.copyRes f <;>
      cases hk : env.closeOk f <;> simp [ho, hc, hk]
    exact eq_comm
  · intro n hcn hkf
    cases ho : env.openOk f <;> simp [readFile1, ho, hcn, hkf]
  · intro h
    simp [readFile, h]

/-- C2 witness: with a close that always fails, a fully read file emits no
stat and contributes nothing. -/
theorem reader_stat_iff_witness : readFile envClose ["x"] = [] :=
  (reader_stat_iff envClose "x").2.2
    ((reader_stat_iff envClose "x").2.1 4 rfl rfl)

/-- C3: `Stats.Add` is pairwise field addition, commutative and associative,
so folding any permutation of a finite sequence of stats (as the aggregator
does) yields identical totals. -/
theorem merge_order_independent :
    (∀ a b : Stats, a.Add b = b.Add a) ∧
    (∀ a b c : Stats, (a.Add b).Add c = a.Add (b.Add c)) ∧
    (∀ (z : Stats) (l₁ l₂ : List Stats), l₁.Perm l₂ → mergeAll z l₁ = mergeAll z l₂) :=
  ⟨Add_comm, Add_assoc, fun z l₁ l₂ h => by
    rw [mergeAll_eq, mergeAll_eq, statsSum_perm h]⟩

/-- C3 witness: merging two concrete stats in either order gives the same
total. -/
theorem merge_order_independent_witness :
    mergeAll Stats.zero [⟨1, 0, 10⟩, ⟨0, 2, 0⟩] =
      mergeAll Stats.zero [⟨0, 2, 0⟩, ⟨1, 0, 10⟩] :=
  merge_order_independent.2.2 Stats.zero _ _
    (List.Perm.swap (⟨0, 2, 0⟩ : Stats) (⟨1, 0, 10⟩ : Stats) [])

/-- C4: for a fixed tree, the final merged Stats returned by the core
traversal are identical for every worker count ≥ 1, whatever the
interleaving. -/
theorem worker_count_invariance (env : ReadEnv) (root : FS) (w₁ w₂ : Nat)
    (s₁ s₂ : TState) (t₁ t₂ : Stats) (hw₁ : 1 ≤ w₁) (hw₂ : 1 ≤ w₂)
    (hr₁ : Reachable env root w₁ s₁) (hres₁ : s₁.result = some t₁)
    (hr₂ : Reachable env root w₂ s₂) (hres₂ : s₂.result = some t₂) : t₁ = t₂ :=
  (result_eq hw₁ hr₁ hres₁).trans (result_eq hw₂ hr₂ hres₂).symm

/-- C4 witness: a 1-worker run and an 8-worker run of the §8 scenario both
return ⟨3, 2, 60⟩. -/
theorem worker_count_invariance_witness :
    final1.result = some ⟨3, 2, 60⟩ ∧ final8.result = some ⟨3, 2, 60⟩ ∧
      (⟨3, 2, 60⟩ : Stats) = ⟨3, 2, 60⟩ :=
  ⟨by decide, by decide,
    worker_count_invariance envW rootW 1 8 final1 final8 ⟨3, 2, 60⟩ ⟨3, 2, 60⟩
      (by decide) (by decide)
      (runN_reachable envW (walk rootW).2 60 (initState (walk rootW).1 1)) (by decide)
      (runN_reachable envW (walk rootW).2 80 (initState (walk rootW).1 8)) (by decide)⟩

/-- C5 counterexample: in `cexTree` the readable regular file `r/b` follows
an entry whose stat fails; the claim says traversal of the rest of the tree
continues, so `r/b` would be emitted as a task — but the walk emits no task
at all (`filepath.Walk` aborts the whole walk when the callback returns the
error). -/
theorem walk_abort_cex :
    "r/b" ∈ filePaths cexTree ∧ (readFile1 envW "r/b").isSome = true ∧
      walk cexTree = ([], ⟨0, 1, 0⟩) := by
  decide

/-- C5 (amended): a traversal error on an entry is logged and does not crash
the run, the failing entry emits no task and contributes nothing to stats —
but the walk stops at the first error (the error propagates out of
`filepath.Walk`, so the remaining entries are not visited); the producer
still emits its summary stat with the directories counted before the error,
still closes the task channel, and `traverse` still returns its
well-defined result. -/
theorem walk_error_isolation :
    (∀ (p : String) (acc : List String × Nat), walkF (FS.statErr p) acc = (acc, true)) ∧
    (∀ (p : String) (rest : FS) (acc : List String × Nat),
       walkF (FS.fcons (FS.statErr p) rest) acc = (acc, true)) ∧
    (∀ root : FS, (walkF root ([], 0)).2 = true →
       walkEvents root = ((walk root).1.map WalkEvent.sendTask) ++
         [WalkEvent.logWalkError, WalkEvent.sendStat (walk root).2,
           WalkEvent.closeTasks]) ∧
    (∀ (env : ReadEnv) (root : FS) (w : Nat) (s : TState) (t : Stats), 1 ≤ w →
       Reachable env root w s → s.result = some t → t = traverseSpec env root) := by
  refine ⟨fun p acc => rfl, fun p rest acc => rfl, ?_,
    fun env root w s t hw hr hres => result_eq hw hr hres⟩
  intro root herr
  simp [walkEvents, walk, herr]

/-- C5 witness: on the concrete failing tree the producer's trace is the
error log, the summary stat with the one directory counted before the
failure, and the close. -/
theorem walk_error_isolation_witness :
    walkEvents cexTree = ((walk cexTree).1.map WalkEvent.sendTask) ++
      [WalkEvent.logWalkError, WalkEvent.sendStat (walk cexTree).2,
        WalkEvent.closeTasks] :=
  walk_error_isolation.2.2.1 cexTree (by decide)

/-- C6: two-phase shutdown — whenever the stats queue is closed, every
reader worker has finished (and so holds no unsent stat, and the producer
has already sent its summary stat and closed the task channel: no pending
writer, no lost stat), and whenever the merged Stats have been returned, the
aggregator has finished draining the closed, empty stats queue and the
result is its total. -/
theorem shutdown_two_phase (env : ReadEnv) (root : FS) (w : Nat) (s : TState)
    (hw : 1 ≤ w) (hr : Reachable env root w s) :
    (s.statsClosed = true →
       (∀ ws ∈ s.workers, ws = WState.finished) ∧
         pendSum s.workers = Stats.zero ∧ s.prodPC = ProdPC.closed) ∧
    (∀ t, s.result = some t →
       s.aggDone = true ∧ s.statsClosed = true ∧ s.statsQ = [] ∧ t = s.aggTotal) := by
  have hc := reachable_ctrl hw hr
  constructor
  · intro hsc
    have h2 := hc.statsIff.mp hsc
    have hall := hc.orchFin (by omega)
    have htc := allfin_tasksClosed hw hc hall
    exact ⟨hall, pendSum_all_finished hall, hc.closedIff.mp htc⟩
  · intro t ht
    obtain ⟨hd, hagg⟩ := hc.resFrozen t ht
    obtain ⟨hsc, hq⟩ := hc.aggDrained hd
    exact ⟨hd, hsc, hq, hagg⟩

/-- C6 witness: in the finished 2-worker run of the §8 scenario the
aggregator is done, the stats queue is closed and drained, and the returned
value is the aggregator's total. -/
theorem shutdown_two_phase_witness :
    final2.aggDone = true ∧ final2.statsClosed = true ∧ final2.statsQ = [] ∧
      (⟨3, 2, 60⟩ : Stats) = final2.aggTotal :=
  (shutdown_two_phase envW rootW 2 final2 (by decide)
      (runN_reachable envW (walk rootW).2 60 (initState (walk rootW).1 2))).2
    ⟨3, 2, 60⟩ (by decide)

/-- C7: the producer's trace is its task sends (and possibly one error log),
then exactly one summary stat carrying the final directory count, then the
single close of the task channel, which comes last; and in the step model no
action other than the producer's own close step ever closes the task
channel. -/
theorem producer_summary_once (root : FS) :
    (∃ pre, walkEvents root =
        pre ++ [WalkEvent.sendStat (walk root).2, WalkEvent.closeTasks] ∧
      ∀ e ∈ pre, (∃ p, e = WalkEvent.sendTask p) ∨ e = WalkEvent.logWalkError) ∧
    (walkEvents root).countP isSendStat = 1 ∧
    (walkEvents root).countP isCloseEvent = 1 ∧
    (walk root).2 = ⟨0, ((walkF root ([], 0)).1.2 : Int), 0⟩ ∧
    (∀ (env : ReadEnv) (d : Stats) (s s' : TState), Step env d s s' →
       s'.tasksClosed ≠ s.tasksClosed →
       s.prodPC = ProdPC.statSent ∧ s'.prodPC = ProdPC.closed ∧
         s'.tasksClosed = true) := by
  refine ⟨?_, ?_, ?_, rfl, ?_⟩
  · refine ⟨((walkF root ([], 0)).1.1.map WalkEvent.sendTask) ++
      (if (walkF root ([], 0)).2 then [WalkEvent.logWalkError] else []), ?_, ?_⟩
    · simp [walkEvents]
    · intro e he
      rcases List.mem_append.mp he with hm | hi
      · obtain ⟨p, _, hp⟩ := List.mem_map.mp hm
        exact Or.inl ⟨p, hp.symm⟩
      · right
        cases hcond : (walkF root ([], 0)).2 <;> rw [hcond] at hi <;> simp at hi
        exact hi
  · unfold walkEvents
    rw [List.countP_append, List.countP_append]
    have h1 : ((walkF root ([], 0)).1.1.map WalkEvent.sendTask).countP isSendStat = 0 := by
      rw [List.countP_eq_zero]
      intro e he
      obtain ⟨p, _, hp⟩ := List.mem_map.mp he
      rw [← hp]
      simp [isSendStat]
    have h2 : (if (walkF root ([], 0)).2 then [WalkEvent.logWalkError] else []).countP
        isSendStat = 0 := by
      cases hcond : (walkF root ([], 0)).2 <;> rfl
    rw [h1, h2]
    rfl
  · unfold walkEvents
    rw [List.countP_append, List.countP_append]
    have h1 : ((walkF root ([], 0)).1.1.map WalkEvent.sendTask).countP isCloseEvent = 0 := by
      rw [List.countP_eq_zero]
      intro e he
      obtain ⟨p, _, hp⟩ := List.mem_map.mp he
      rw [← hp]
      simp [isCloseEvent]
    have h2 : (if (walkF root ([], 0)).2 then [WalkEvent.logWalkError] else []).countP
        isCloseEvent = 0 := by
      cases hcond : (walkF root ([], 0)).2 <;> rfl
    rw [h1, h2]
    rfl
  · intro env d s s' hstep hne
    cases hstep with
    | prodSend t rest hpc hrem => exact absurd rfl hne
    | prodStat hpc hrem => exact absurd rfl hne
    | prodClose hpc => exact ⟨hpc, rfl, rfl⟩
    | workerTake i t rest hi hq => exact absurd rfl hne
    | workerEmit i st hi => exact absurd rfl hne
    | workerFinish i hi hq hc => exact absurd rfl hne
    | aggRecv st rest hq => exact absurd rfl hne
    | aggFinish hsc hq hnd => exact absurd rfl hne
    | orchWait h0 hall => exact absurd rfl hne
    | orchClose h1 => exact absurd rfl hne
    | orchJoin h2 hd => exact absurd rfl hne
    | orchReturn h3 => exact absurd rfl hne

/-- C7 witness: on the §8 scenario tree the producer emits exactly one
summary stat and exactly one close. -/
theorem producer_summary_once_witness :
    (walkEvents rootW).countP isSendStat = 1 ∧
      (walkEvents rootW).countP isCloseEvent = 1 :=
  ⟨(producer_summary_once rootW).2.1, (producer_summary_once rootW).2.2.1⟩

/-- C8 (the data-line half fails): `main` opens the output file with flag
`syscall.O_APPEND` alone, whose access-mode bits are `O_RDONLY`, so the
`Fprintf` of the data row fails and its error is discarded.  A fresh run
creates the file with the header exactly once (and a run against an
existing path never rewrites the header) — but no run ever appends a data
line: the file's content stays exactly the header. -/
theorem output_no_data_line :
    outputRun none "2\t3\t2\t60\t0.5\t120\n" false = Except.ok (some headerLine) ∧
    outputRun (some headerLine) "2\t3\t2\t60\t0.5\t120\n" false =
      Except.ok (some headerLine) ∧
    O_APPEND &&& O_ACCMODE = O_RDONLY :=
  ⟨rfl, rfl, rfl⟩

/-- C9: every stat a reader worker can emit has dirs = 0 (and files = 1),
the producer's single summary stat has files = 0 and bytes = 0, and in the
final merged total the dirs count is exactly the walk's directory count
while files and bytes come exactly from the successfully read files. -/
theorem stats_provenance (env : ReadEnv) (root : FS) :
    (∀ p s, readFile1 env p = some s → s.files = 1 ∧ s.dirs = 0) ∧
    ((walk root).2.files = 0 ∧ (walk root).2.bytes = 0) ∧
    (queueStats env (walk root).1).dirs = 0 ∧
    (traverseSpec env root).dirs = (walk root).2.dirs ∧
    (traverseSpec env root).files = (queueStats env (walk root).1).files ∧
    (traverseSpec env root).bytes = (queueStats env (walk root).1).bytes := by
  have hq0 : ∀ l, (queueStats env l).dirs = 0 := by
    intro l
    induction l with
    | nil => simp
    | cons t l ih =>
      rw [queueStats_cons]
      simp only [Add_dirs, ih, Int.add_zero]
      unfold task1 procTask
      cases h : readFile1 env t with
      | none => rfl
      | some st =>
        have := (readFile1_some_shape env t st h).2
        simpa [wpending]
  refine ⟨fun p s h => readFile1_some_shape env p s h, ⟨rfl, rfl⟩, hq0 _, ?_, ?_, ?_⟩
  · unfold traverseSpec
    simp [hq0]
  · unfold traverseSpec
    have : (walk root).2.files = 0 := rfl
    simp [this]
  · unfold traverseSpec
    have : (walk root).2.bytes = 0 := rfl
    simp [this]

/-- C9 witness: on the §8 scenario the merged total's dirs equal the walk's
directory count. -/
theorem stats_provenance_witness :
    (traverseSpec envW rootW).dirs = (walk rootW).2.dirs :=
  (stats_provenance envW rootW).2.2.2.1

/-- C10: if walking the root fails immediately (the root's `lstat` fails,
e.g. the directory does not exist), the traversal still returns
Stats⟨0, 0, 0⟩ after logging the error, and with a correct argument count
and no output-file-creation failure the process exits with status 0. -/
theorem root_walk_failure (env : ReadEnv) (p : String) (w : Nat) (s : TState)
    (t : Stats) (hw : 1 ≤ w) (hr : Reachable env (FS.statErr p) w s)
    (hres : s.result = some t) :
    t = ⟨0, 0, 0⟩ ∧ WalkEvent.logWalkError ∈ walkEvents (FS.statErr p) ∧
      (∀ ex : Bool, mainExitCode 1 ex false = 0) := by
  refine ⟨?_, ?_, ?_⟩
  · have h1 := result_eq hw hr hres
    rw [h1]
    rfl
  · simp [walkEvents, walkF]
  · intro ex
    cases ex <;> rfl

/-- C10 witness: a finished run over the nonexistent root returns ⟨0, 0, 0⟩,
the error is logged, and the exit code is 0. -/
theorem root_walk_failure_witness :
    finalE.result = some ⟨0, 0, 0⟩ ∧
      ((⟨0, 0, 0⟩ : Stats) = ⟨0, 0, 0⟩ ∧
        WalkEvent.logWalkError ∈ walkEvents (FS.statErr "missing") ∧
        ∀ ex : Bool, mainExitCode 1 ex false = 0) :=
  ⟨by decide,
    root_walk_failure envW "missing" 1 finalE ⟨0, 0, 0⟩ (by decide)
      (runN_reachable envW (walk rootE).2 30 (initState (walk rootE).1 1)) (by decide)⟩

end Prb
